import Mathlib

set_option maxHeartbeats 1000000

/- Verification development for the log-structured key-value storage engine.
The record codec (entry.Encode, entry.Decode, entry.DecodeFromReader) and the
engine state machine (handlePut, Get, GetInt64, rotateActiveSegment,
mergeSegments, rebuildIndex, open/close) are shallowly embedded over byte
lists.  A byte is a natural number; Go's little-endian uint32/uint64 reads
interpret each byte modulo 256, and Go's uint32 arithmetic is written with
explicit reduction modulo 2^32.  The buffered reader is modelled as the list
of bytes remaining in the stream. -/

/-- Value-type tag for string records (Go: TypeString uint8 = 1). -/
def TypeString : Nat := 1

/-- Value-type tag for int64 records (Go: TypeInt64 uint8 = 2). -/
def TypeInt64 : Nat := 2

/-- Read the i-th byte of a buffer, interpreting the entry modulo 256
(a Go byte slice only ever holds values below 256). -/
def byteAt (l : List Nat) (i : Nat) : Nat := l.getD i 0 % 256

/-- Little-endian 32-bit read (Go: binary.LittleEndian.Uint32). -/
def readLE32 (l : List Nat) : Nat :=
  byteAt l 0 + 256 * byteAt l 1 + 65536 * byteAt l 2 + 16777216 * byteAt l 3

/-- Little-endian 64-bit read (Go: binary.LittleEndian.Uint64). -/
def readLE64 (l : List Nat) : Nat :=
  byteAt l 0 + 256 * byteAt l 1 + 65536 * byteAt l 2 + 16777216 * byteAt l 3 +
    4294967296 * byteAt l 4 + 1099511627776 * byteAt l 5 +
    281474976710656 * byteAt l 6 + 72057594037927936 * byteAt l 7

/-- Little-endian 32-bit write (Go: binary.LittleEndian.PutUint32).
Values of 2^32 and above are truncated, as by Go's uint32 conversion. -/
def writeLE32 (n : Nat) : List Nat :=
  [n % 256, n / 256 % 256, n / 65536 % 256, n / 16777216 % 256]

/-- Little-endian 64-bit write (Go: binary.LittleEndian.PutUint64). -/
def writeLE64 (n : Nat) : List Nat :=
  [n % 256, n / 256 % 256, n / 65536 % 256, n / 16777216 % 256,
   n / 4294967296 % 256, n / 1099511627776 % 256,
   n / 281474976710656 % 256, n / 72057594037927936 % 256]

/-- Go's uint64(i) conversion of an int64: two's-complement reinterpretation. -/
def toUInt64 (i : Int) : Nat := (i % 18446744073709551616).toNat

/-- Go's int64(n) conversion of a uint64: two's-complement reinterpretation. -/
def toInt64 (n : Nat) : Int :=
  if n % 18446744073709551616 < 9223372036854775808 then
    ((n % 18446744073709551616 : Nat) : Int)
  else ((n % 18446744073709551616 : Nat) : Int) - 18446744073709551616

/-- A record, as the Go struct entry: a decoded entry not touching a field
leaves it at the zero value ([] for strings, 0 for integers). -/
structure entry where
  key : List Nat
  valueType : Nat
  stringValue : List Nat
  int64Value : Int
deriving DecidableEq

/-- Encode a record (entry.Encode): total-size, key-length, key, type byte,
value payload, all little-endian.  Unknown value types fall back to the
string form with tag TypeString, as in the Go source. -/
def entry.Encode (e : entry) : List Nat :=
  let vt := if e.valueType = TypeInt64 then TypeInt64 else TypeString
  let valueData :=
    if e.valueType = TypeInt64 then writeLE64 (toUInt64 e.int64Value)
    else writeLE32 e.stringValue.length ++ e.stringValue
  let size := 4 + 4 + e.key.length + 1 + valueData.length
  writeLE32 size ++ writeLE32 e.key.length ++ e.key ++ vt :: valueData

/-- Decode failures of entry.Decode.  Each constructor corresponds to one
error return of the Go function; sliceBounds stands for the slice-bounds
panic Go raises when a wrapped uint32 index leaves the input range. -/
inductive DErr where
  | tooShort
  | keyTooShort
  | sliceBounds
  | noValueData
  | strHdrShort
  | strTooShort
  | int64Short
deriving DecidableEq

/-- Decode a record from a byte slice (entry.Decode).  Index arithmetic on
the key length follows Go's uint32 arithmetic (modulo 2^32); the declared
total-size field, bytes 0 to 3, is never inspected. -/
def entry.Decode (input : List Nat) : Except DErr entry :=
  if input.length < 9 then .error .tooShort
  else
    let keyLen := readLE32 (input.drop 4)
    if input.length < (8 + keyLen + 1) % 4294967296 then .error .keyTooShort
    else
      let hi := (8 + keyLen) % 4294967296
      if hi < 8 ∨ input.length < hi then .error .sliceBounds
      else
        let key := (input.drop 8).take (hi - 8)
        if input.length % 4294967296 ≤ hi then
          .ok { key := key, valueType := TypeString,
                stringValue := input.drop hi, int64Value := 0 }
        else
          let vt := input.getD hi 0
          let valueDataStart := (hi + 1) % 4294967296
          if input.length ≤ valueDataStart then .error .noValueData
          else
            let valueData := input.drop valueDataStart
            if vt = TypeString then
              if valueData.length < 4 then .error .strHdrShort
              else
                let strLen := readLE32 valueData
                let vhi := (4 + strLen) % 4294967296
                if valueData.length < vhi then .error .strTooShort
                else if vhi < 4 then .error .sliceBounds
                else .ok { key := key, valueType := TypeString,
                           stringValue := (valueData.drop 4).take (vhi - 4),
                           int64Value := 0 }
            else if vt = TypeInt64 then
              if valueData.length < 8 then .error .int64Short
              else .ok { key := key, valueType := TypeInt64,
                         stringValue := [], int64Value := toInt64 (readLE64 valueData) }
            else
              if 4 ≤ valueData.length then
                let strLen := readLE32 valueData
                let vhi := (4 + strLen) % 4294967296
                if vhi ≤ valueData.length then
                  if vhi < 4 then .error .sliceBounds
                  else .ok { key := key, valueType := TypeString,
                             stringValue := (valueData.drop 4).take (vhi - 4),
                             int64Value := 0 }
                else .ok { key := key, valueType := TypeString,
                           stringValue := valueData, int64Value := 0 }
              else .ok { key := key, valueType := TypeString,
                         stringValue := valueData, int64Value := 0 }

/-- Result of entry.DecodeFromReader: a decoded record with the byte count
consumed, the clean end-of-stream signal (0 bytes with io.EOF, produced when
fewer than 4 bytes remain), or a corruption error with the byte count. -/
inductive ReadRes where
  | ok (n : Nat) (e : entry)
  | eof
  | corrupt (n : Nat)
deriving DecidableEq

/-- Decode a record from a stream (entry.DecodeFromReader): peek the 4-byte
total size, require it to be at least 9, read exactly that many bytes (the
stream yields at most what remains), and decode them.  s is the list of
bytes remaining in the stream. -/
def entry.DecodeFromReader (s : List Nat) : ReadRes :=
  if s.length < 4 then .eof
  else
    let totalSize := readLE32 s
    if totalSize < 9 then .corrupt 0
    else
      let n := min s.length totalSize
      if n ≠ totalSize then .corrupt n
      else
        match entry.Decode (s.take totalSize) with
        | .ok e => .ok totalSize e
        | .error _ => .corrupt totalSize

/-- A list is a list of bytes when every element is below 256. -/
def ByteOk (l : List Nat) : Prop := ∀ b ∈ l, b < 256

/-- Well-formed records: the canonical image of the abstract data model.
The length bounds say the encoded size fits the 4-byte total-size field. -/
def entry.WF (e : entry) : Prop :=
  ByteOk e.key ∧
    ((e.valueType = TypeString ∧ ByteOk e.stringValue ∧ e.int64Value = 0 ∧
        13 + e.key.length + e.stringValue.length < 4294967296) ∨
     (e.valueType = TypeInt64 ∧ e.stringValue = [] ∧
        -9223372036854775808 ≤ e.int64Value ∧ e.int64Value < 9223372036854775808 ∧
        17 + e.key.length < 4294967296))

/-- Engine error kinds: ErrNotFound, ErrTypeMismatch, corrupted-segment and
decode errors during index build, io.EOF surfacing from a read past the end,
a failed file open, a failed append-write, and the unsupported-value-type
error of the writer. -/
inductive DbErr where
  | notFound
  | typeMismatch
  | corruptSegment
  | eofErr
  | openErr
  | writeErr
  | badType
deriving DecidableEq

/-- An index entry: (segment-id, byte offset of the record start). -/
structure IndexEntry where
  segmentID : Nat
  offset : Nat
deriving DecidableEq

/-- The in-memory hash index, modelled as an association list where the most
recently inserted binding for a key wins (Go map assignment semantics). -/
abbrev Index := List (List Nat × IndexEntry)

/-- Map lookup: the last binding for the key, if any. -/
def iLookup : Index → List Nat → Option IndexEntry
  | [], _ => none
  | p :: ps, k =>
    match iLookup ps k with
    | some v => some v
    | none => if p.1 = k then some p.2 else none

/-- Map assignment: append a binding; iLookup takes the latest. -/
def iInsert (idx : Index) (k : List Nat) (v : IndexEntry) : Index := idx ++ [(k, v)]

/-- The Db state: the in-memory index, the configuration, the active segment
id, the sealed segments as (id, file content) in list order, the content of
the active file current-data, and the writer's out-offset. -/
structure Db where
  index : Index
  maxSegmentSize : Nat
  activeSegmentID : Nat
  segments : List (Nat × List Nat)
  active : List Nat
  outOffset : Nat
deriving DecidableEq

/-- One pass of indexSegmentFile: stream-decode records from bytes, recording
index[key] = (segmentID, offset) for each, stopping cleanly at the (0, EOF)
signal and failing on any other error.  Matches the Go loop, including its
check that a non-zero byte count with EOF is corruption (unreachable, since
the EOF signal always carries a zero count). -/
def indexFile (segID : Nat) (bytes : List Nat) (offset : Nat) (idx : Index) :
    Except DbErr Index :=
  match h : entry.DecodeFromReader bytes with
  | .eof => .ok idx
  | .corrupt _ => .error .corruptSegment
  | .ok n e => indexFile segID (bytes.drop n) (offset + n) (iInsert idx e.key ⟨segID, offset⟩)
termination_by bytes.length
decreasing_by
  have hb : 9 ≤ n ∧ n ≤ bytes.length := by
    simp only [entry.DecodeFromReader] at h
    split at h
    · simp at h
    · split at h
      · simp at h
      · split at h
        · simp at h
        · split at h
          · injection h with h1 h2
            subst h1
            omega
          · simp at h
  simp only [List.length_drop]
  omega

/-- indexSegmentFile over a list of files, threading the index, failing on
the first corrupted file (rebuildIndex's loop). -/
def indexFiles : List (Nat × List Nat) → Index → Except DbErr Index
  | [], idx => .ok idx
  | f :: rest, idx =>
    match indexFile f.1 f.2 0 idx with
    | .error err => .error err
    | .ok idx2 => indexFiles rest idx2

/-- Insert into a list sorted ascending by segment id. -/
def insertSeg (p : Nat × List Nat) : List (Nat × List Nat) → List (Nat × List Nat)
  | [] => [p]
  | q :: qs => if p.1 ≤ q.1 then p :: q :: qs else q :: insertSeg p qs

/-- Sort segments ascending by id (sort.Slice on the id field). -/
def sortSegs : List (Nat × List Nat) → List (Nat × List Nat)
  | [] => []
  | p :: ps => insertSeg p (sortSegs ps)

/-- rebuildIndex: walk all segments (sealed plus active) sorted ascending by
id, oldest first, so the latest record for each key wins. -/
def Db.rebuildIndex (db : Db) : Except DbErr Index :=
  indexFiles (sortSegs (db.segments ++ [(db.activeSegmentID, db.active)])) []

/-- The shared body of Get and GetInt64: look the key up in the index,
resolve the segment id to the active file or a sealed file, seek to the
offset and stream-decode one record. -/
def Db.findRecord (db : Db) (key : List Nat) : Except DbErr entry :=
  match iLookup db.index key with
  | none => .error .notFound
  | some ie =>
    match (if ie.segmentID = db.activeSegmentID then some db.active
           else match db.segments.find? (fun p => decide (p.1 = ie.segmentID)) with
                | some p => some p.2
                | none => none) with
    | none => .error .openErr
    | some fileBytes =>
      match entry.DecodeFromReader (fileBytes.drop ie.offset) with
      | .ok _ e => .ok e
      | .eof => .error .eofErr
      | .corrupt _ => .error .corruptSegment

/-- Get: the latest string value for the key. -/
def Db.Get (db : Db) (key : List Nat) : Except DbErr (List Nat) :=
  match db.findRecord key with
  | .error err => .error err
  | .ok r => if r.valueType ≠ TypeString then .error .typeMismatch else .ok r.stringValue

/-- Go map assignment keyEntries[e.key] = e on an association list kept in
first-insertion order: replace in place, or append a fresh key. -/
def upsertE : List entry → entry → List entry
  | [], e => [e]
  | x :: xs, e => if x.key = e.key then e :: xs else x :: upsertE xs e

/-- The merge loop over one sealed file: stream-decode every record,
keeping the latest per key. -/
def collectFile (bytes : List Nat) (acc : List entry) : Except DbErr (List entry) :=
  match h : entry.DecodeFromReader bytes with
  | .eof => .ok acc
  | .corrupt _ => .error .corruptSegment
  | .ok n e => collectFile (bytes.drop n) (upsertE acc e)
termination_by bytes.length
decreasing_by
  have hb : 9 ≤ n ∧ n ≤ bytes.length := by
    simp only [entry.DecodeFromReader] at h
    split at h
    · simp at h
    · split at h
      · simp at h
      · split at h
        · simp at h
        · split at h
          · injection h with h1 h2
            subst h1
            omega
          · simp at h
  simp only [List.length_drop]
  omega

/-- The merge loop over all sealed segments, oldest first. -/
def collectSegs : List (Nat × List Nat) → List entry → Except DbErr (List entry)
  | [], acc => .ok acc
  | seg :: rest, acc =>
    match collectFile seg.2 acc with
    | .error err => .error err
    | .ok acc2 => collectSegs rest acc2

/-- Concatenation of encoded records: the content of a segment file. -/
def encList : List entry → List Nat
  | [] => []
  | e :: es => entry.Encode e ++ encList es

/-- mergeSegments: fold all sealed segments into a key-to-latest-record map,
write it to a fresh file that replaces them all under the lowest merged id,
and rebuild the index (the active segment is untouched).  The Go map is
iterated in unspecified order when writing; the model writes the entries in
first-insertion order, one fixed admissible order. -/
def Db.mergeSegments (db : Db) : Db × Except DbErr Unit :=
  match collectSegs db.segments [] with
  | .error err => (db, .error err)
  | .ok kes =>
    match db.segments with
    | [] => (db, .ok ())
    | s0 :: _ =>
      if kes.isEmpty then (db, .ok ())
      else
        let db1 := { db with segments := [(s0.1, encList kes)] }
        match db1.rebuildIndex with
        | .error err => (db1, .error err)
        | .ok idx => ({ db1 with index := idx }, .ok ())

/-- A write request as submitted to the writer goroutine. -/
structure putRequest where
  key : List Nat
  value : List Nat
  int64Value : Int
  valueType : Nat
deriving DecidableEq

/-- Outcome of the append-write to the active file: success, or an I/O error
after a short write of n bytes. -/
inductive WriteOutcome where
  | success
  | failed (n : Nat)
deriving DecidableEq

/-- The reserved merge-request sentinel key, the bytes of the Go string
literal spelled underscore underscore M E R G E underscore underscore. -/
def mergeKey : List Nat := [95, 95, 77, 69, 82, 71, 69, 95, 95]

/-- rotateActiveSegment: seal the active file under the current active id,
increment the active id, and start a fresh empty active file at offset 0. -/
def Db.rotateActiveSegment (db : Db) : Db :=
  { db with
      segments := db.segments ++ [(db.activeSegmentID, db.active)],
      activeSegmentID := db.activeSegmentID + 1,
      active := [],
      outOffset := 0 }

/-- The record the writer builds from a request (for valueType in
TypeString, TypeInt64; other types are rejected before this point). -/
def entryOfReq (req : putRequest) : entry :=
  if req.valueType = TypeString then ⟨req.key, TypeString, req.value, 0⟩
  else ⟨req.key, TypeInt64, [], req.int64Value⟩

/-- Requests whose handling the invariant proofs cover: a merge request, a
request rejected for its value type, or a write request whose record is well
formed (its key and value fit the 4-byte length fields of the format). -/
def ReqOk (r : putRequest) : Prop :=
  r.key = mergeKey ∨ ¬(r.valueType = TypeString ∨ r.valueType = TypeInt64) ∨
    (entryOfReq r).WF

/-- handlePut: the writer's per-request procedure.  The sentinel key routes
to mergeSegments; otherwise rotate if the out-offset has reached the
configured maximum, encode and append the record, and on success update the
index to (active id, previous out-offset) and advance the out-offset.  On a
failed write the file keeps the short prefix and the index is untouched. -/
def Db.handlePut (db : Db) (req : putRequest) (w : WriteOutcome) :
    Db × Except DbErr Unit :=
  if req.key = mergeKey then db.mergeSegments
  else
    let db1 := if db.maxSegmentSize ≤ db.outOffset then db.rotateActiveSegment else db
    if req.valueType = TypeString ∨ req.valueType = TypeInt64 then
      let e := entryOfReq req
      let data := entry.Encode e
      match w with
      | .failed n => ({ db1 with active := db1.active ++ data.take n }, .error .writeErr)
      | .success =>
        ({ db1 with
            index := iInsert db1.index req.key ⟨db1.activeSegmentID, db1.outOffset⟩,
            active := db1.active ++ data,
            outOffset := db1.outOffset + data.length }, .ok ())
    else (db1, .error .badType)

/-- A data directory: the sealed segment files (id parsed from the
segment-id file name) and the optional current-data file. -/
structure DiskDir where
  sealed : List (Nat × List Nat)
  current : Option (List Nat)
deriving DecidableEq

/-- OpenWithMaxSegmentSize: scan the directory (loadExistingSegments sorts
sealed segments by id and sets the active id to one past the largest sealed
id, or 0), open or create current-data at its current size
(openActiveSegment), and rebuild the index; a rebuild error is fatal. -/
def Db.OpenWithMaxSegmentSize (d : DiskDir) (maxSegmentSize : Nat) : Except DbErr Db :=
  let segs := sortSegs d.sealed
  let activeID := d.sealed.foldl (fun a p => max a (p.1 + 1)) 0
  let active := d.current.getD []
  let db0 : Db := { index := [], maxSegmentSize := maxSegmentSize,
                    activeSegmentID := activeID, segments := segs,
                    active := active, outOffset := active.length }
  match db0.rebuildIndex with
  | .error err => .error err
  | .ok idx => .ok { db0 with index := idx }

/-- Close: stop the workers and close the active file; what persists is the
directory content. -/
def Db.Close (db : Db) : DiskDir := ⟨db.segments, some db.active⟩

/-- The segment-layout invariant of P6/I3: sealed-segment ids strictly
ascending, all below the active segment id. -/
def SegInv (db : Db) : Prop :=
  (db.segments.map Prod.fst).Pairwise (· < ·) ∧
    ∀ p ∈ db.segments, p.1 < db.activeSegmentID

/-- Pair each record of a file with the byte offset at which it starts,
beginning at off. -/
def withOffsets : Nat → List entry → List (Nat × entry)
  | _, [] => []
  | off, e :: es => (off, e) :: withOffsets (off + (entry.Encode e).length) es

/-- All records of a list of (id, records) files, each annotated with its
file id and its start offset, in file order then offset order. -/
def specRecs : List (Nat × List entry) → List (Nat × Nat × entry)
  | [] => []
  | p :: ps => (withOffsets 0 p.2).map (fun q => (p.1, q.1, q.2)) ++ specRecs ps

/-- The files seen by the rebuild: sealed views then the active view. -/
def specFiles (sv : List (Nat × List entry)) (aid : Nat) (av : List entry) :
    List (Nat × List entry) := sv ++ [(aid, av)]

/-- The index the rebuild derives: one binding per record in scan order. -/
def specIndex (sv : List (Nat × List entry)) (aid : Nat) (av : List entry) : Index :=
  (specRecs (specFiles sv aid av)).map (fun t => (t.2.2.key, ⟨t.1, t.2.1⟩))

/-- Every record of the list is well formed. -/
def WFentries (es : List entry) : Prop := ∀ e ∈ es, e.WF

/-- The representation invariant of reachable Db states: every file is a
concatenation of encoded well-formed records, sealed ids are strictly
ascending and below the active id, the out-offset is the active file length,
and the index answers exactly as the index rebuilt from the files would. -/
structure DbRep (db : Db) (sv : List (Nat × List entry)) (av : List entry) : Prop where
  seg_eq : db.segments = sv.map (fun p => (p.1, encList p.2))
  seg_wf : ∀ p ∈ sv, WFentries p.2
  act_eq : db.active = encList av
  act_wf : WFentries av
  ids_lt : ∀ p ∈ sv, p.1 < db.activeSegmentID
  ids_sorted : (sv.map Prod.fst).Pairwise (· < ·)
  off_eq : db.outOffset = db.active.length
  idx_eq : ∀ k, iLookup db.index k = iLookup (specIndex sv db.activeSegmentID av) k

instance decidableByteOk (l : List Nat) : Decidable (ByteOk l) := by
  unfold ByteOk
  infer_instance

instance decidableWF (e : entry) : Decidable e.WF := by
  unfold entry.WF
  infer_instance

instance decidableWFentries (es : List entry) : Decidable (WFentries es) := by
  unfold WFentries
  infer_instance

instance decidableReqOk (r : putRequest) : Decidable (ReqOk r) := by
  unfold ReqOk
  infer_instance

instance decidableSegInv (db : Db) : Decidable (SegInv db) := by
  unfold SegInv
  infer_instance

/-- An empty database state, used to instantiate the theorems. -/
def dbEmpty : Db := ⟨[], 100, 0, [], [], 0⟩

/-- Concrete well-formed records, used to instantiate the theorems. -/
def entW1 : entry := ⟨[107], TypeString, [118], 0⟩

/-- Second concrete record (an int64 record under another key). -/
def entW2 : entry := ⟨[108], TypeInt64, [], 42⟩

/-- Third concrete record, overwriting the first record's key. -/
def entW3 : entry := ⟨[107], TypeString, [119], 0⟩

/-- Record-level view of the three sealed one-record segments of dbW. -/
def svW : List (Nat × List entry) := [(0, [entW1]), (1, [entW2]), (2, [entW3])]

/-- A concrete reachable-looking state: three sealed segments with ids 0, 1,
2 holding one record each, an empty active segment with id 3, and the index
the rebuild would produce. -/
def dbW : Db :=
  ⟨specIndex svW 3 [], 100, 3,
   [(0, encList [entW1]), (1, encList [entW2]), (2, encList [entW3])], [], 0⟩

theorem toUInt64_lt (i : Int) : toUInt64 i < 18446744073709551616 := by
  unfold toUInt64
  omega

theorem dfr_ok_bounds (s : List Nat) (n : Nat) (e : entry)
    (h : entry.DecodeFromReader s = .ok n e) : 9 ≤ n ∧ n ≤ s.length := by
  simp only [entry.DecodeFromReader] at h
  split at h
  · simp at h
  · split at h
    · simp at h
    · split at h
      · simp at h
      · split at h
        · injection h with h1 h2
          subst h1
          omega
        · simp at h

theorem mem_upsertE (acc : List entry) (e x : entry) (h : x ∈ upsertE acc e) :
    x = e ∨ x ∈ acc := by
  induction acc with
  | nil => simpa [upsertE] using h
  | cons a as ih =>
    simp only [upsertE] at h
    by_cases hk : a.key = e.key
    · rw [if_pos hk] at h
      rcases List.mem_cons.mp h with rfl | h
      · exact Or.inl rfl
      · exact Or.inr (by simp [h])
    · rw [if_neg hk] at h
      rcases List.mem_cons.mp h with rfl | h
      · exact Or.inr (by simp)
      · rcases ih h with h2 | h2
        · exact Or.inl h2
        · exact Or.inr (by simp [h2])

theorem keys_nodup_upsertE (acc : List entry) (e : entry)
    (h : (acc.map entry.key).Nodup) : ((upsertE acc e).map entry.key).Nodup := by
  induction acc with
  | nil => simp [upsertE]
  | cons a as ih =>
    simp only [upsertE]
    by_cases hk : a.key = e.key
    · rw [if_pos hk]
      simp only [List.map_cons] at h ⊢
      rw [← hk]
      exact h
    · rw [if_neg hk]
      simp only [List.map_cons, List.nodup_cons] at h ⊢
      refine ⟨?_, ih h.2⟩
      intro hmem
      obtain ⟨x, hx, hxk⟩ := List.mem_map.mp hmem
      rcases mem_upsertE as e x hx with rfl | hx2
      · exact hk hxk.symm
      · exact h.1 (List.mem_map.mpr ⟨x, hx2, hxk⟩)

theorem foldl_upsertE_nodup (rs : List entry) (acc : List entry)
    (hnd : (acc.map entry.key).Nodup) :
    ((rs.foldl upsertE acc).map entry.key).Nodup := by
  induction rs generalizing acc with
  | nil => simpa using hnd
  | cons r rs ih => exact ih _ (keys_nodup_upsertE acc r hnd)

theorem readLE32_lt (l : List Nat) : readLE32 l < 4294967296 := by
  unfold readLE32 byteAt
  omega

theorem mergeSegments_frame (db : Db) :
    (db.mergeSegments).1.active = db.active ∧
      (db.mergeSegments).1.outOffset = db.outOffset ∧
      (db.mergeSegments).1.activeSegmentID = db.activeSegmentID ∧
      (db.mergeSegments).1.maxSegmentSize = db.maxSegmentSize := by
  unfold Db.mergeSegments
  split
  · exact ⟨rfl, rfl, rfl, rfl⟩
  · split
    · exact ⟨rfl, rfl, rfl, rfl⟩
    · split
      · exact ⟨rfl, rfl, rfl, rfl⟩
      · dsimp only
        split
        · exact ⟨rfl, rfl, rfl, rfl⟩
        · exact ⟨rfl, rfl, rfl, rfl⟩

theorem foldl_max_ge_init (l : List (Nat × List Nat)) (a : Nat) :
    a ≤ l.foldl (fun b q => max b (q.1 + 1)) a := by
  induction l generalizing a with
  | nil => simp
  | cons q qs ih =>
    simp only [List.foldl_cons]
    exact le_trans (le_max_left a (q.1 + 1)) (ih _)

theorem foldl_max_lt (l : List (Nat × List Nat)) (p : Nat × List Nat) (hp : p ∈ l)
    (a : Nat) : p.1 < l.foldl (fun b q => max b (q.1 + 1)) a := by
  induction l generalizing a with
  | nil => simp at hp
  | cons q qs ih =>
    simp only [List.foldl_cons]
    rcases List.mem_cons.mp hp with rfl | hp2
    · have h1 : p.1 + 1 ≤ max a (p.1 + 1) := le_max_right a (p.1 + 1)
      have h2 := foldl_max_ge_init qs (max a (p.1 + 1))
      omega
    · exact ih hp2 _

theorem mem_insertSeg (p q : Nat × List Nat) (l : List (Nat × List Nat)) :
    q ∈ insertSeg p l ↔ q = p ∨ q ∈ l := by
  induction l with
  | nil => simp [insertSeg]
  | cons x xs ih =>
    simp only [insertSeg]
    by_cases hle : p.1 ≤ x.1
    · rw [if_pos hle]
      simp [or_comm, or_assoc, or_left_comm]
    · rw [if_neg hle]
      simp only [List.mem_cons, ih]
      tauto

theorem insertSeg_sorted (p : Nat × List Nat) (l : List (Nat × List Nat))
    (h : l.Pairwise (fun a b => a.1 ≤ b.1)) :
    (insertSeg p l).Pairwise (fun a b => a.1 ≤ b.1) := by
  induction l with
  | nil => simp [insertSeg]
  | cons x xs ih =>
    obtain ⟨hx, hxs⟩ := List.pairwise_cons.mp h
    simp only [insertSeg]
    by_cases hle : p.1 ≤ x.1
    · rw [if_pos hle]
      refine List.pairwise_cons.mpr ⟨?_, h⟩
      intro q hq
      rcases List.mem_cons.mp hq with rfl | hq2
      · exact hle
      · exact le_trans hle (hx q hq2)
    · rw [if_neg hle]
      refine List.pairwise_cons.mpr ⟨?_, ih hxs⟩
      intro q hq
      rcases (mem_insertSeg p q xs).mp hq with rfl | hq2
      · omega
      · exact hx q hq2

theorem sortSegs_sorted (l : List (Nat × List Nat)) :
    (sortSegs l).Pairwise (fun a b => a.1 ≤ b.1) := by
  induction l with
  | nil => simp [sortSegs]
  | cons p ps ih => exact insertSeg_sorted p (sortSegs ps) ih

theorem insertSeg_perm (p : Nat × List Nat) (l : List (Nat × List Nat)) :
    (insertSeg p l).Perm (p :: l) := by
  induction l with
  | nil => simp [insertSeg]
  | cons x xs ih =>
    simp only [insertSeg]
    by_cases hle : p.1 ≤ x.1
    · rw [if_pos hle]
    · rw [if_neg hle]
      calc x :: insertSeg p xs
          |>.Perm (x :: p :: xs) := List.Perm.cons x ih
      _ |>.Perm (p :: x :: xs) := List.Perm.swap p x xs

theorem sortSegs_perm (l : List (Nat × List Nat)) : (sortSegs l).Perm l := by
  induction l with
  | nil => simp [sortSegs]
  | cons p ps ih =>
    exact (insertSeg_perm p (sortSegs ps)).trans (List.Perm.cons p ih)

theorem decode_ok_conditions (input : List Nat) (e : entry)
    (hlen : input.length < 4294967294)
    (h : entry.Decode input = .ok e) :
    9 ≤ input.length ∧
    readLE32 (input.drop 4) + 10 ≤ input.length ∧
    (input.getD (8 + readLE32 (input.drop 4)) 0 = TypeString →
      readLE32 (input.drop (9 + readLE32 (input.drop 4))) + 4 ≤
        input.length - (9 + readLE32 (input.drop 4))) ∧
    (input.getD (8 + readLE32 (input.drop 4)) 0 = TypeInt64 →
      8 ≤ input.length - (9 + readLE32 (input.drop 4))) := by
  have hkl := readLE32_lt (input.drop 4)
  simp only [entry.Decode] at h
  by_cases c1 : input.length < 9
  · rw [if_pos c1] at h
    cases h
  rw [if_neg c1] at h
  by_cases c2 : input.length < (8 + readLE32 (input.drop 4) + 1) % 4294967296
  · rw [if_pos c2] at h
    cases h
  rw [if_neg c2] at h
  by_cases c3 : (8 + readLE32 (input.drop 4)) % 4294967296 < 8 ∨
      input.length < (8 + readLE32 (input.drop 4)) % 4294967296
  · rw [if_pos c3] at h
    cases h
  rw [if_neg c3] at h
  have hm1 : (8 + readLE32 (input.drop 4)) % 4294967296 =
      8 + readLE32 (input.drop 4) := by omega
  rw [hm1] at h
  have hm2 : (8 + readLE32 (input.drop 4) + 1) % 4294967296 =
      9 + readLE32 (input.drop 4) := by omega
  rw [hm2] at h
  by_cases c4 : input.length % 4294967296 ≤ 8 + readLE32 (input.drop 4)
  · exfalso
    omega
  rw [if_neg c4] at h
  by_cases c5 : input.length ≤ 9 + readLE32 (input.drop 4)
  · rw [if_pos c5] at h
    cases h
  rw [if_neg c5] at h
  have hdl : (input.drop (9 + readLE32 (input.drop 4))).length =
      input.length - (9 + readLE32 (input.drop 4)) := by
    simp [List.length_drop]
  have hsl := readLE32_lt (input.drop (9 + readLE32 (input.drop 4)))
  refine ⟨by omega, by omega, ?_, ?_⟩
  · intro hvt
    rw [if_pos hvt] at h
    by_cases c6 : (input.drop (9 + readLE32 (input.drop 4))).length < 4
    · rw [if_pos c6] at h
      cases h
    rw [if_neg c6] at h
    by_cases c7 : (input.drop (9 + readLE32 (input.drop 4))).length <
        (4 + readLE32 (input.drop (9 + readLE32 (input.drop 4)))) % 4294967296
    · rw [if_pos c7] at h
      cases h
    rw [if_neg c7] at h
    by_cases c8 : (4 + readLE32 (input.drop (9 + readLE32 (input.drop 4)))) %
        4294967296 < 4
    · rw [if_pos c8] at h
      cases h
    omega
  · intro hvt
    rw [if_neg (by rw [hvt]; decide)] at h
    rw [if_pos hvt] at h
    by_cases c9 : (input.drop (9 + readLE32 (input.drop 4))).length < 8
    · rw [if_pos c9] at h
      cases h
    omega

theorem indexFile_nil (segID : Nat) (offset : Nat) (idx : Index) :
    indexFile segID [] offset idx = .ok idx := by
  rw [indexFile]
  rfl

theorem dbEmpty_rep : DbRep dbEmpty [] [] :=
  ⟨rfl, by decide, rfl, by decide, by decide, by decide, rfl, fun _ => rfl⟩

theorem dfr_sizeCheck (s : List Nat) (h4 : 4 ≤ s.length) (h9 : readLE32 s < 9) :
    entry.DecodeFromReader s = .corrupt 0 := by
  simp only [entry.DecodeFromReader]
  rw [if_neg (by omega), if_pos h9]

theorem rotate_segInv (db : Db) (h : SegInv db) : SegInv db.rotateActiveSegment := by
  obtain ⟨hs, hlt⟩ := h
  constructor
  · simp only [Db.rotateActiveSegment, List.map_append, List.pairwise_append]
    refine ⟨hs, by simp, ?_⟩
    intro a ha b hb
    simp only [List.map_cons, List.map_nil, List.mem_singleton] at hb
    subst hb
    obtain ⟨p, hp, rfl⟩ := List.mem_map.mp ha
    exact hlt p hp
  · intro p hp
    simp only [Db.rotateActiveSegment] at hp ⊢
    rcases List.mem_append.mp hp with hp | hp
    · have := hlt p hp
      omega
    · simp only [List.mem_singleton] at hp
      subst hp
      omega

theorem mergeSegments_segInv (db : Db) (h : SegInv db) : SegInv (db.mergeSegments).1 := by
  unfold Db.mergeSegments
  split
  · exact h
  · split
    · exact h
    · next s0 tail heq =>
      split
      · exact h
      · dsimp only
        split
        · refine ⟨by simp, ?_⟩
          intro p hp
          simp only [List.mem_singleton] at hp
          subst hp
          exact h.2 s0 (by rw [heq]; simp)
        · refine ⟨by simp, ?_⟩
          intro p hp
          simp only [List.mem_singleton] at hp
          subst hp
          exact h.2 s0 (by rw [heq]; simp)

theorem segInv_of_eq (a b : Db) (hs : a.segments = b.segments)
    (ha : a.activeSegmentID = b.activeSegmentID) (h : SegInv b) : SegInv a := by
  unfold SegInv at h ⊢
  rw [hs, ha]
  exact h

theorem handlePut_frame (db : Db) (req : putRequest) (w : WriteOutcome)
    (hkey : ¬(req.key = mergeKey)) :
    (db.handlePut req w).1.segments =
      (if db.maxSegmentSize ≤ db.outOffset then db.rotateActiveSegment else db).segments ∧
    (db.handlePut req w).1.activeSegmentID =
      (if db.maxSegmentSize ≤ db.outOffset then db.rotateActiveSegment
       else db).activeSegmentID := by
  simp only [Db.handlePut]
  rw [if_neg hkey]
  by_cases hrot : db.maxSegmentSize ≤ db.outOffset
  · rw [if_pos hrot]
    by_cases hty : req.valueType = TypeString ∨ req.valueType = TypeInt64
    · rw [if_pos hty]
      cases w <;> exact ⟨rfl, rfl⟩
    · rw [if_neg hty]
      exact ⟨rfl, rfl⟩
  · rw [if_neg hrot]
    by_cases hty : req.valueType = TypeString ∨ req.valueType = TypeInt64
    · rw [if_pos hty]
      cases w <;> exact ⟨rfl, rfl⟩
    · rw [if_neg hty]
      exact ⟨rfl, rfl⟩

/-- C2: a Put of the reserved key "__MERGE__" is intercepted by the writer
and executes the merge procedure instead of appending a record: the active
file and out-offset are untouched for every state and every write outcome,
and on the empty store the call reports success while a subsequent
Get("__MERGE__") returns NotFound — the sentinel lives inside the public key
space. -/
theorem C2_merge_sentinel :
    (∀ (db : Db) (v : List Nat) (i : Int) (w : WriteOutcome),
      db.handlePut ⟨mergeKey, v, i, TypeString⟩ w = db.mergeSegments ∧
      (db.mergeSegments).1.active = db.active ∧
      (db.mergeSegments).1.outOffset = db.outOffset) ∧
    ((dbEmpty.handlePut ⟨mergeKey, [118], 0, TypeString⟩ .success).2 = .ok () ∧
     (dbEmpty.handlePut ⟨mergeKey, [118], 0, TypeString⟩ .success).1.Get mergeKey =
       .error .notFound) := by
  refine ⟨fun db v i w => ⟨?_, (mergeSegments_frame db).1,
    (mergeSegments_frame db).2.1⟩, rfl, rfl⟩
  simp [Db.handlePut]

/-- C4 counterexample: this 13-byte input declares total-size 0 in its first
four bytes, yet Decode succeeds (yielding an empty-key empty-string record):
Decode does not validate the declared total-size field at all, so the claim
that it checks total-size at least 9 and fails otherwise does not hold. -/
theorem C4_counterexample :
    entry.Decode [0, 0, 0, 0, 0, 0, 0, 0, 1, 0, 0, 0, 0] =
      .ok ⟨[], TypeString, [], 0⟩ ∧
    readLE32 [0, 0, 0, 0, 0, 0, 0, 0, 1, 0, 0, 0, 0] = 0 := ⟨rfl, rfl⟩

/-- C4 (amended): the at-least-9 validation of the declared total-size field
belongs to DecodeFromReader, which rejects any stream whose declared size is
below 9 (first conjunct); Decode itself never reads that field and instead
validates the input slice: it returns a record only when the input holds at
least 9 bytes, the declared key length plus header, tag and a non-empty value
payload fit within the input, and — for a STRING tag — the declared string
length plus its 4-byte header fits in the remaining bytes, and — for an
INT64 tag — 8 value bytes remain (second conjunct). -/
theorem C4_decode_validation :
    (∀ s : List Nat, 4 ≤ s.length → readLE32 s < 9 →
      entry.DecodeFromReader s = .corrupt 0) ∧
    (∀ (input : List Nat) (e : entry), input.length < 4294967294 →
      entry.Decode input = .ok e →
      9 ≤ input.length ∧
      readLE32 (input.drop 4) + 10 ≤ input.length ∧
      (input.getD (8 + readLE32 (input.drop 4)) 0 = TypeString →
        readLE32 (input.drop (9 + readLE32 (input.drop 4))) + 4 ≤
          input.length - (9 + readLE32 (input.drop 4))) ∧
      (input.getD (8 + readLE32 (input.drop 4)) 0 = TypeInt64 →
        8 ≤ input.length - (9 + readLE32 (input.drop 4)))) :=
  ⟨dfr_sizeCheck, decode_ok_conditions⟩

/-- C4 witness: the declared-size check of the stream decoder at a concrete
short declared size, and the length validation at a concrete decodable
int64 record input. -/
theorem C4_decode_validation_witness :
    entry.DecodeFromReader [3, 0, 0, 0] = .corrupt 0 ∧
    (9 ≤ ([0, 0, 0, 0, 0, 0, 0, 0, 2, 5, 0, 0, 0, 0, 0, 0, 0] : List Nat).length ∧
      readLE32 (([0, 0, 0, 0, 0, 0, 0, 0, 2, 5, 0, 0, 0, 0, 0, 0, 0] : List Nat).drop 4) +
        10 ≤ ([0, 0, 0, 0, 0, 0, 0, 0, 2, 5, 0, 0, 0, 0, 0, 0, 0] : List Nat).length ∧
      (([0, 0, 0, 0, 0, 0, 0, 0, 2, 5, 0, 0, 0, 0, 0, 0, 0] : List Nat).getD
          (8 + readLE32 (([0, 0, 0, 0, 0, 0, 0, 0, 2, 5, 0, 0, 0, 0, 0, 0, 0] :
            List Nat).drop 4)) 0 = TypeString →
        readLE32 (([0, 0, 0, 0, 0, 0, 0, 0, 2, 5, 0, 0, 0, 0, 0, 0, 0] :
            List Nat).drop (9 + readLE32 (([0, 0, 0, 0, 0, 0, 0, 0, 2, 5, 0, 0, 0,
              0, 0, 0, 0] : List Nat).drop 4))) + 4 ≤
          ([0, 0, 0, 0, 0, 0, 0, 0, 2, 5, 0, 0, 0, 0, 0, 0, 0] : List Nat).length -
            (9 + readLE32 (([0, 0, 0, 0, 0, 0, 0, 0, 2, 5, 0, 0, 0, 0, 0, 0, 0] :
              List Nat).drop 4))) ∧
      (([0, 0, 0, 0, 0, 0, 0, 0, 2, 5, 0, 0, 0, 0, 0, 0, 0] : List Nat).getD
          (8 + readLE32 (([0, 0, 0, 0, 0, 0, 0, 0, 2, 5, 0, 0, 0, 0, 0, 0, 0] :
            List Nat).drop 4)) 0 = TypeInt64 →
        8 ≤ ([0, 0, 0, 0, 0, 0, 0, 0, 2, 5, 0, 0, 0, 0, 0, 0, 0] : List Nat).length -
          (9 + readLE32 (([0, 0, 0, 0, 0, 0, 0, 0, 2, 5, 0, 0, 0, 0, 0, 0, 0] :
            List Nat).drop 4)))) :=
  ⟨C4_decode_validation.1 [3, 0, 0, 0] (by decide) (by decide),
   C4_decode_validation.2 [0, 0, 0, 0, 0, 0, 0, 0, 2, 5, 0, 0, 0, 0, 0, 0, 0]
     ⟨[], TypeInt64, [], 5⟩ (by decide) rfl⟩

/-- C8: at open the segment layout invariant is established — sealed-segment
ids strictly ascending and all below the active id (first conjunct, for any
directory whose sealed files carry distinct ids, as file names do) — and it
is preserved by rotation (second conjunct) and by every writer request —
writes, failed writes, rejected types, and merges (third conjunct); the
directory image of any state holds exactly one active file, current-data
(fourth conjunct). -/
theorem C8_segment_invariant :
    (∀ (d : DiskDir) (m : Nat) (db2 : Db), (d.sealed.map Prod.fst).Nodup →
      Db.OpenWithMaxSegmentSize d m = .ok db2 → SegInv db2) ∧
    (∀ db : Db, SegInv db → SegInv db.rotateActiveSegment) ∧
    (∀ (db : Db) (req : putRequest) (w : WriteOutcome), SegInv db →
      SegInv (db.handlePut req w).1) ∧
    (∀ db : Db, (Db.Close db).current = some db.active) := by
  refine ⟨?_, rotate_segInv, ?_, fun db => rfl⟩
  · intro d m db2 hnd hopen
    simp only [Db.OpenWithMaxSegmentSize] at hopen
    split at hopen
    · cases hopen
    · injection hopen with hopen
      subst hopen
      constructor
      · have hperm := sortSegs_perm d.sealed
        have hnd2 : ((sortSegs d.sealed).map Prod.fst).Nodup :=
          ((hperm.map Prod.fst).nodup_iff).mpr hnd
        have hsorted := sortSegs_sorted d.sealed
        have hne : (sortSegs d.sealed).Pairwise (fun a b => a.1 ≠ b.1) :=
          List.pairwise_map.mp hnd2
        have hlt : (sortSegs d.sealed).Pairwise (fun a b => a.1 < b.1) :=
          (hsorted.and hne).imp (fun hab => lt_of_le_of_ne hab.1 hab.2)
        exact List.pairwise_map.mpr hlt
      · intro p hp
        have hmem := (sortSegs_perm d.sealed).mem_iff.mp hp
        exact foldl_max_lt d.sealed p hmem 0
  · intro db req w hinv
    by_cases hkey : req.key = mergeKey
    · have hm : db.handlePut req w = db.mergeSegments := by
        simp [Db.handlePut, hkey]
      rw [hm]
      exact mergeSegments_segInv db hinv
    · obtain ⟨hs, ha⟩ := handlePut_frame db req w hkey
      apply segInv_of_eq _ _ hs ha
      by_cases hrot : db.maxSegmentSize ≤ db.outOffset
      · rw [if_pos hrot]
        exact rotate_segInv db hinv
      · rw [if_neg hrot]
        exact hinv

/-- C8 witness: the invariant holds after opening a concrete one-segment
directory, after rotating the concrete state, and after a concrete write. -/
theorem C8_segment_invariant_witness :
    SegInv dbW.rotateActiveSegment ∧
    SegInv (dbW.handlePut ⟨[107], [118], 0, TypeString⟩ .success).1 ∧
    ∃ db2, Db.OpenWithMaxSegmentSize ⟨[(5, [])], some []⟩ 64 = .ok db2 ∧
      SegInv db2 := by
  have hreb : Db.rebuildIndex ⟨[], 64, 6, [(5, [])], [], 0⟩ = .ok [] := by
    unfold Db.rebuildIndex
    simp [sortSegs, insertSeg, indexFiles, indexFile_nil]
  have hopen : Db.OpenWithMaxSegmentSize ⟨[(5, [])], some []⟩ 64 =
      .ok ⟨[], 64, 6, [(5, [])], [], 0⟩ := by
    simp only [Db.OpenWithMaxSegmentSize]
    rw [show sortSegs [(5, [])] = [(5, [])] from rfl]
    rw [show List.foldl (fun b (q : Nat × List Nat) => max b (q.1 + 1)) 0
      [(5, [])] = 6 from rfl]
    rw [show (Option.getD (some ([] : List Nat)) []) = [] from rfl]
    rw [show (List.length ([] : List Nat)) = 0 from rfl]
    rw [hreb]
  exact ⟨C8_segment_invariant.2.1 dbW (by decide),
    C8_segment_invariant.2.2.1 dbW ⟨[107], [118], 0, TypeString⟩ .success (by decide),
    ⟨[], 64, 6, [(5, [])], [], 0⟩, hopen,
    C8_segment_invariant.1 ⟨[(5, [])], some []⟩ 64 ⟨[], 64, 6, [(5, [])], [], 0⟩
      (by decide) hopen⟩

/-- C9: for a non-sentinel write request of a supported type, starting from a
state whose out-offset equals the active file length, the active segment
after the write never exceeds the configured maximum segment size by more
than that one encoded record, because the rotation check runs before the
append; the out-offset tracks the file length. -/
theorem C9_segment_size_bound (db : Db) (req : putRequest)
    (hkey : req.key ≠ mergeKey)
    (hty : req.valueType = TypeString ∨ req.valueType = TypeInt64)
    (hoff : db.outOffset = db.active.length) :
    (db.handlePut req .success).1.active.length ≤
      db.maxSegmentSize + (entry.Encode (entryOfReq req)).length ∧
    (db.handlePut req .success).1.outOffset =
      (db.handlePut req .success).1.active.length := by
  by_cases hrot : db.maxSegmentSize ≤ db.outOffset
  · have hm : db.handlePut req .success =
        ({ db.rotateActiveSegment with
            index := iInsert db.rotateActiveSegment.index req.key
              ⟨db.rotateActiveSegment.activeSegmentID, db.rotateActiveSegment.outOffset⟩,
            active := db.rotateActiveSegment.active ++ entry.Encode (entryOfReq req),
            outOffset := db.rotateActiveSegment.outOffset +
              (entry.Encode (entryOfReq req)).length },
         .ok ()) := by
      simp only [Db.handlePut]
      rw [if_neg hkey, if_pos hrot, if_pos hty]
    rw [hm]
    constructor
    · simp [Db.rotateActiveSegment]
    · simp [Db.rotateActiveSegment]
  · have hm : db.handlePut req .success =
        ({ db with
            index := iInsert db.index req.key ⟨db.activeSegmentID, db.outOffset⟩,
            active := db.active ++ entry.Encode (entryOfReq req),
            outOffset := db.outOffset + (entry.Encode (entryOfReq req)).length },
         .ok ()) := by
      simp only [Db.handlePut]
      rw [if_neg hkey, if_neg hrot, if_pos hty]
    rw [hm]
    constructor
    · simp only [List.length_append]
      omega
    · simp only [List.length_append]
      omega

/-- C9 witness: one write into the empty store. -/
theorem C9_segment_size_bound_witness :
    (dbEmpty.handlePut ⟨[107], [118], 0, TypeString⟩ .success).1.active.length ≤
      dbEmpty.maxSegmentSize +
        (entry.Encode (entryOfReq ⟨[107], [118], 0, TypeString⟩)).length ∧
    (dbEmpty.handlePut ⟨[107], [118], 0, TypeString⟩ .success).1.outOffset =
      (dbEmpty.handlePut ⟨[107], [118], 0, TypeString⟩ .success).1.active.length :=
  C9_segment_size_bound dbEmpty ⟨[107], [118], 0, TypeString⟩ (by decide)
    (Or.inl rfl) rfl

/-- C10: if the append-write of a record fails — a short write of n bytes
followed by an I/O error — the error is surfaced to the caller of
put/put_int64 and the in-memory index is left entirely unchanged: no entry
is added or modified for any key, in particular not for the request's key. -/
theorem C10_write_error_no_index_update (db : Db) (req : putRequest) (n : Nat)
    (hkey : req.key ≠ mergeKey)
    (hty : req.valueType = TypeString ∨ req.valueType = TypeInt64) :
    (db.handlePut req (.failed n)).2 = .error .writeErr ∧
    (db.handlePut req (.failed n)).1.index = db.index := by
  by_cases hrot : db.maxSegmentSize ≤ db.outOffset
  · have hm : db.handlePut req (.failed n) =
        ({ db.rotateActiveSegment with
            active := db.rotateActiveSegment.active ++
              (entry.Encode (entryOfReq req)).take n },
         .error .writeErr) := by
      simp only [Db.handlePut]
      rw [if_neg hkey, if_pos hrot, if_pos hty]
    rw [hm]
    exact ⟨rfl, rfl⟩
  · have hm : db.handlePut req (.failed n) =
        ({ db with
            active := db.active ++ (entry.Encode (entryOfReq req)).take n },
         .error .writeErr) := by
      simp only [Db.handlePut]
      rw [if_neg hkey, if_neg hrot, if_pos hty]
    rw [hm]
    exact ⟨rfl, rfl⟩

/-- C10 witness: a failed write of 3 bytes into the empty store. -/
theorem C10_write_error_no_index_update_witness :
    (dbEmpty.handlePut ⟨[107], [118], 0, TypeString⟩ (.failed 3)).2 =
      .error .writeErr ∧
    (dbEmpty.handlePut ⟨[107], [118], 0, TypeString⟩ (.failed 3)).1.index =
      dbEmpty.index :=
  C10_write_error_no_index_update dbEmpty ⟨[107], [118], 0, TypeString⟩ 3
    (by decide) (Or.inl rfl)
